/-
Verification of the iterative-solver core (`sigpy/alg.py`) against its
specification.

The development is a shallow embedding of the Python source.  Arrays are
modelled as finite tuples `Fin n → K` over a linear ordered field `K`
(instantiated at `ℚ` for concrete evaluation and at `ℝ` where the claim
needs real square roots).  The numeric backend (`util.norm`, `util.dot`,
`util.axpy`, `util.xpay`, `util.move_to`) is not part of the source file
`alg.py`; those operations are modelled from the specification's numeric
operation interface.  The backend's scalar square root (`** 0.5` in the
source) is passed around as an explicit function parameter `sqrt : K → K`.

Each solver is a structure holding exactly the attributes the Python class
mutates; its `_update`/`_init`/`_done` hooks become pure functions on the
structure.  The base-class lifecycle (`Alg.init`, `Alg.update`, `Alg.done`)
becomes a generic state machine over the solver state.
-/
import Mathlib

section Backend

variable {K : Type} [LinearOrderedField K] {n : ℕ}

/-- Arrays of the backend: dense numerical vectors of a fixed length. -/
def Vec (K : Type) (n : ℕ) : Type := Fin n → K

/-- Modelled from the spec: `dot(x,y) → scalar` of the numeric operation
interface (`util.dot`, not part of `src/sigpy/alg.py`). -/
def dot (x y : Vec K n) : K := ∑ i, x i * y i

/-- Modelled from the spec: `norm(x) → scalar` of the numeric operation
interface (`util.norm`, not part of `src/sigpy/alg.py`); the Euclidean
norm `sqrt (dot x x)`, with the backend square root passed explicitly. -/
def normV (sqrt : K → K) (x : Vec K n) : K := sqrt (dot x x)

/-- Modelled from the spec: `axpy(y, a, x) → y += a*x` (in-place fused
scaled add of the numeric operation interface). -/
def axpy (y : Vec K n) (a : K) (x : Vec K n) : Vec K n :=
  fun i => y i + a * x i

/-- Modelled from the spec: `xpay(y, a, x) → y = x + a*y` (in-place fused
update of the numeric operation interface). -/
def xpay (y : Vec K n) (a : K) (x : Vec K n) : Vec K n :=
  fun i => x i + a * y i

end Backend

section Engine

variable {σ : Type}

/-- State of the iteration engine (base class `Alg`): the fixed iteration
ceiling `max_iter`, the counter `iter`, and the solver-specific state. -/
structure AlgState (σ : Type) where
  max_iter : ℕ
  iter : ℕ
  st : σ

/-- Embeds `Alg.init` (lines 34–40): set `self.iter = 0`, then run the
solver's `_init` hook inside the device scope. -/
def Alg.init (hookInit : σ → σ) (max_iter : ℕ) (s : σ) : AlgState σ :=
  ⟨max_iter, 0, hookInit s⟩

/-- Embeds `Alg.update` (lines 42–48): run the solver's `_update` hook
(which may read `self.max_iter` and the pre-increment `self.iter`), then
increment `self.iter` by one. -/
def Alg.update (hookUpdate : ℕ → ℕ → σ → σ) (a : AlgState σ) : AlgState σ :=
  ⟨a.max_iter, a.iter + 1, hookUpdate a.max_iter a.iter a.st⟩

/-- Embeds `Alg.update` (lines 42–48) for a solver whose `_update` hook
may raise: the hook runs first and may have mutated the solver state by
the time it raises; only when it returns normally does the engine reach
`self.iter += 1` — an exception propagates with the counter unchanged. -/
def Alg.updateE (hookUpdate : ℕ → ℕ → σ → σ × Except String Unit)
    (a : AlgState σ) : AlgState σ × Except String Unit :=
  let r := hookUpdate a.max_iter a.iter a.st
  match r.2 with
  | Except.ok _ => (⟨a.max_iter, a.iter + 1, r.1⟩, Except.ok ())
  | Except.error e => (⟨a.max_iter, a.iter, r.1⟩, Except.error e)

/-- Embeds the default `Alg._done` (lines 28–29):
`self.iter >= self.max_iter`. -/
def Alg.doneDefault (a : AlgState σ) : Prop := a.iter ≥ a.max_iter

/-- Repeated invocation of the engine's `update`, i.e. `k` calls of
`update()` by the caller's loop. -/
def Alg.iterate (hookUpdate : ℕ → ℕ → σ → σ) : ℕ → AlgState σ → AlgState σ
  | 0, a => a
  | k + 1, a => Alg.update hookUpdate (Alg.iterate hookUpdate k a)

end Engine

section Power

variable {K : Type} [LinearOrderedField K] {n : ℕ}

/-- State of `PowerMethod` (lines 61–88): the Hermitian map `A`, the
iterate `x`, and the eigenvalue estimate `max_eig`.  The constructor and
`_init` set `max_eig = np.infty`; no modelled operation reads `max_eig`
before `_update` overwrites it, so the state keeps a plain scalar. -/
structure PowerMethod (K : Type) (n : ℕ) where
  A : Vec K n → Vec K n
  x : Vec K n
  max_eig : K

/-- Embeds `PowerMethod._update` (lines 83–88): `y = A(x)`;
`max_eig = norm(y)`; `x ← y / max_eig` elementwise (via `move_to`).
There is no guard on `max_eig` before the division. -/
def PowerMethod.update (sqrt : K → K) (s : PowerMethod K n) : PowerMethod K n :=
  let y := s.A s.x
  let me := normV sqrt y
  { s with max_eig := me, x := fun i => y i / me }

/-- The engine hook of `PowerMethod`: `_update` reads neither `max_iter`
nor `iter`. -/
def PowerMethod.hook (sqrt : K → K) : ℕ → ℕ → PowerMethod K n → PowerMethod K n :=
  fun _ _ s => PowerMethod.update sqrt s

/-- `PowerMethod` does not override `_done`: it inherits the default
iteration-count predicate. -/
def PowerMethod.done (a : AlgState (PowerMethod K n)) : Prop := Alg.doneDefault a

end Power

section ProximalPoint

variable {K : Type} [LinearOrderedField K] {n : ℕ}

/-- State of `ProximalPointMethod` (lines 91–103). -/
structure ProximalPointMethod (K : Type) (n : ℕ) where
  proxf : K → Vec K n → Vec K n
  alpha : K
  x : Vec K n

/-- Embeds `ProximalPointMethod._update` (lines 102–103):
`x ← proxf(alpha, x)`. -/
def ProximalPointMethod.update (s : ProximalPointMethod K n) :
    ProximalPointMethod K n :=
  { s with x := s.proxf s.alpha s.x }

end ProximalPoint

section Gradient

variable {K : Type} [LinearOrderedField K] {n : ℕ}

/-- State of `GradientMethod` (lines 106–191).  The Python class allocates
`z`, `t` only when `accelerate` and `x_old` only when
`accelerate or proxg is not None`; here the fields are always present and
the update/init functions touch them exactly under the source's
conditions.  `residual` is `np.infty` after `_init`, so it lives in
`WithTop K` with `⊤` for infinity. -/
structure GradientMethod (K : Type) (n : ℕ) where
  gradf : Vec K n → Vec K n
  alpha : K
  proxg : Option (K → Vec K n → Vec K n)
  accelerate : Bool
  x : Vec K n
  z : Vec K n
  t : K
  x_old : Vec K n
  residual : WithTop K

/-- Embeds `GradientMethod._init` (lines 145–153): if accelerating,
`z = x.copy()` and `t = 1`; if accelerating or proximal, `x_old = x.copy()`;
`residual = np.infty`. -/
def GradientMethod.init (s : GradientMethod K n) : GradientMethod K n :=
  let s1 := if s.accelerate then { s with z := s.x, t := 1 } else s
  let s2 := if s.accelerate || s.proxg.isSome then { s1 with x_old := s1.x }
            else s1
  { s2 with residual := ⊤ }

/-- Embeds `GradientMethod._update` (lines 155–177), following the source
line by line: optional snapshot `x_old ← x`; if accelerating work from `z`;
`gradf_x = gradf(x)`; `axpy(x, -alpha, gradf_x)`; optional proximal map;
if accelerating update `t` and the momentum point `z`; then the residual
(`‖(x − x_old)/alpha**0.5‖` in the composite case, `‖gradf_x‖` otherwise). -/
def GradientMethod.update (sqrt : K → K) (s : GradientMethod K n) :
    GradientMethod K n :=
  let x_old := if s.accelerate || s.proxg.isSome then s.x else s.x_old
  let x0 := if s.accelerate then s.z else s.x
  let gradf_x := s.gradf x0
  let x1 := axpy x0 (-s.alpha) gradf_x
  let x2 := match s.proxg with
    | some prox => prox s.alpha x1
    | none => x1
  let tz : K × Vec K n :=
    if s.accelerate then
      let t_old := s.t
      let tNew := (1 + sqrt (1 + 4 * t_old ^ 2)) / 2
      (tNew, fun i => x2 i + (t_old - 1) / tNew * (x2 i - x_old i))
    else (s.t, s.z)
  let residual : WithTop K :=
    if s.accelerate || s.proxg.isSome then
      ↑(normV sqrt (fun i => (x2 i - x_old i) / sqrt s.alpha))
    else ↑(normV sqrt gradf_x)
  { s with x := x2, x_old := x_old, t := tz.1, z := tz.2, residual := residual }

/-- The engine hook of `GradientMethod`: `_update` reads neither
`max_iter` nor `iter`. -/
def GradientMethod.hook (sqrt : K → K) :
    ℕ → ℕ → GradientMethod K n → GradientMethod K n :=
  fun _ _ s => GradientMethod.update sqrt s

/-- Embeds `GradientMethod._done` (lines 182–183):
`(self.iter >= self.max_iter) or self.residual == 0`. -/
def GradientMethod.done (a : AlgState (GradientMethod K n)) : Prop :=
  a.iter ≥ a.max_iter ∨ a.st.residual = (0 : K)

end Gradient

section CG

variable {K : Type} [LinearOrderedField K] {n : ℕ}

/-- State of `ConjugateGradient` (lines 194–272).  `rzold` is `np.infty`
in the constructor but `_init` overwrites it with `dot(r, z)` before any
update can run, so the modelled state is the post-`_init` one with plain
scalars. -/
structure ConjugateGradient (K : Type) (n : ℕ) where
  A : Vec K n → Vec K n
  P : Option (Vec K n → Vec K n)
  x : Vec K n
  b : Vec K n
  r : Vec K n
  p : Vec K n
  rzold : K
  alpha : K
  residual : K
  zero_gradient : Bool

/-- The preconditioning step of `ConjugateGradient`: `z = P(r)` when a
preconditioner is given, else `z = r` (lines 220–223 and 249–252). -/
def CGprecond (P : Option (Vec K n → Vec K n)) (r : Vec K n) : Vec K n :=
  match P with
  | some f => f r
  | none => r

/-- Embeds `ConjugateGradient._init` (lines 217–233): `b ← b − A(x)`;
`r = b` (aliased); `z` preconditioned or aliased to `r`; `p = z.copy()`
(or aliased when `max_iter ≤ 1` — functionally the same state);
`zero_gradient = false`; `rzold = dot(r, z)`; `residual = rzold**0.5`. -/
def ConjugateGradient.init (sqrt : K → K) (s : ConjugateGradient K n) :
    ConjugateGradient K n :=
  let b1 := fun i => s.b i - s.A s.x i
  let z := CGprecond s.P b1
  let rz := dot b1 z
  { s with b := b1, r := b1, p := z, zero_gradient := false,
           rzold := rz, residual := sqrt rz }

/-- Embeds `ConjugateGradient._update` (lines 235–264): `Ap = A(p)`;
`pAp = dot(p, Ap)`; the `pAp == 0` early return setting `zero_gradient`;
otherwise `alpha = rzold/pAp`, `axpy(x, alpha, p)`, and — only when
`iter < max_iter - 1` — the residual/direction refresh
(`axpy(r, -alpha, Ap)`; `z`; `rznew = dot(r, z)`; `beta = rznew/rzold`;
`xpay(p, beta, z)`; `rzold ← rznew`); finally `residual = rzold**0.5`. -/
def ConjugateGradient.update (sqrt : K → K) (max_iter iter : ℕ)
    (s : ConjugateGradient K n) : ConjugateGradient K n :=
  let Ap := s.A s.p
  let pAp := dot s.p Ap
  if pAp = 0 then { s with zero_gradient := true }
  else
    let alpha := s.rzold / pAp
    let x1 := axpy s.x alpha s.p
    if iter < max_iter - 1 then
      let r1 := axpy s.r (-alpha) Ap
      let z := CGprecond s.P r1
      let rznew := dot r1 z
      let beta := rznew / s.rzold
      let p1 := xpay s.p beta z
      { s with alpha := alpha, x := x1, r := r1, p := p1, rzold := rznew,
               residual := sqrt rznew }
    else
      { s with alpha := alpha, x := x1, residual := sqrt s.rzold }

/-- The engine hook of `ConjugateGradient`: `_update` reads `self.iter`
and `self.max_iter` (line 246). -/
def ConjugateGradient.hook (sqrt : K → K) :
    ℕ → ℕ → ConjugateGradient K n → ConjugateGradient K n :=
  fun max_iter iter s => ConjugateGradient.update sqrt max_iter iter s

/-- Embeds `ConjugateGradient._done` (lines 266–267):
`(self.iter >= self.max_iter) or self.zero_gradient or self.residual == 0`. -/
def ConjugateGradient.done (a : AlgState (ConjugateGradient K n)) : Prop :=
  a.iter ≥ a.max_iter ∨ a.st.zero_gradient = true ∨ a.st.residual = 0

end CG

section Newton

variable {K : Type} [LinearOrderedField K] {n : ℕ}

/-- State of `NewtonsMethod` (lines 275–320).  `hessf x` returns a linear
map that is itself applied to vectors (`hessfx(self.x)`, `hessfx(d)`).
The constructor sets `lamda = np.infty`; no modelled operation reads
`lamda` before `_update` overwrites it, so the state keeps a plain
scalar. -/
structure NewtonsMethod (K : Type) (n : ℕ) where
  gradf : Vec K n → Vec K n
  hessf : Vec K n → (Vec K n → Vec K n)
  proxHg : (Vec K n → Vec K n) → Vec K n → Vec K n
  sigma : K
  x : Vec K n
  lamda : K

/-- Embeds `NewtonsMethod._update` (lines 307–320).  The method computes
`hessfx = hessf(x)`, `s = proxHg(hessfx, hessfx(x) - gradf(x))`,
`d = s - x` and `self.lamda = dot(d, hessfx(d))**0.5`, and then executes
`self.x += alpha * d` — but the name `alpha` is bound nowhere (it is not a
parameter, not an attribute: the constructor stores `sigma`, never
`alpha`), so the interpreter raises a `NameError` after the `lamda`
assignment and `x` is left unchanged.  The result is the mutated state
together with the raised exception. -/
def NewtonsMethod.update (sqrt : K → K) (s : NewtonsMethod K n) :
    NewtonsMethod K n × Except String Unit :=
  let hessfx := s.hessf s.x
  let sNew := s.proxHg hessfx (fun i => hessfx s.x i - s.gradf s.x i)
  let d := fun i => sNew i - s.x i
  ({ s with lamda := sqrt (dot d (hessfx d)) },
   Except.error "NameError: name alpha is not defined")

/-- The engine hook of `NewtonsMethod`: `_update` reads neither
`max_iter` nor `iter`, and always raises (see `NewtonsMethod.update`). -/
def NewtonsMethod.hookE (sqrt : K → K) :
    ℕ → ℕ → NewtonsMethod K n → NewtonsMethod K n × Except String Unit :=
  fun _ _ s => NewtonsMethod.update sqrt s

end Newton

section PDHG

variable {K : Type} [LinearOrderedField K] {n m : ℕ}

/-- State of `PrimalDualHybridGradient` (lines 323–407), with primal
variables of length `n` and dual variables of length `m`.  The step sizes
`tau` and `sigma` are modelled as scalars (the source also accepts
arrays); `xp.amin(xp.abs(tau))` on a scalar is `|tau|`. -/
structure PrimalDualHybridGradient (K : Type) (n m : ℕ) where
  proxfc : K → Vec K m → Vec K m
  proxg : K → Vec K n → Vec K n
  A : Vec K n → Vec K m
  AH : Vec K m → Vec K n
  u : Vec K m
  x : Vec K n
  tau : K
  sigma : K
  gamma_primal : K
  gamma_dual : K
  x_ext : Vec K n
  u_old : Vec K m
  x_old : Vec K n

/-- Embeds `PrimalDualHybridGradient._init` (lines 377–381):
`x_ext = x.copy()`, `u_old = u.copy()`, `x_old = x.copy()`. -/
def PrimalDualHybridGradient.init (s : PrimalDualHybridGradient K n m) :
    PrimalDualHybridGradient K n m :=
  { s with x_ext := s.x, u_old := s.u, x_old := s.x }

/-- Embeds `PrimalDualHybridGradient._update` (lines 383–402): snapshot
`u_old ← u`, `x_old ← x`; dual step
`u ← proxfc(sigma, u + sigma·A(x_ext))`; primal step
`x ← proxg(tau, x − tau·AH(u))`; the strong-convexity step-size
adaptation computing `theta` (and rescaling `tau`, `sigma`) only when
exactly one of `gamma_primal`, `gamma_dual` is positive, else `theta = 1`;
extrapolation `x_ext ← x + theta·(x − x_old)`. -/
def PrimalDualHybridGradient.update (sqrt : K → K)
    (s : PrimalDualHybridGradient K n m) : PrimalDualHybridGradient K n m :=
  let u_old := s.u
  let x_old := s.x
  let u1 := s.proxfc s.sigma (fun i => s.u i + s.sigma * s.A s.x_ext i)
  let x1 := s.proxg s.tau (fun i => s.x i - s.tau * s.AH u1 i)
  let tts : K × K × K :=
    if s.gamma_primal > 0 ∧ s.gamma_dual = 0 then
      let theta := 1 / sqrt (1 + 2 * s.gamma_primal * |s.tau|)
      (theta, s.tau * theta, s.sigma / theta)
    else if s.gamma_primal = 0 ∧ s.gamma_dual > 0 then
      let theta := 1 / sqrt (1 + 2 * s.gamma_dual * |s.sigma|)
      (theta, s.tau / theta, s.sigma * theta)
    else (1, s.tau, s.sigma)
  { s with u := u1, x := x1, u_old := u_old, x_old := x_old,
           tau := tts.2.1, sigma := tts.2.2,
           x_ext := fun i => x1 i + tts.1 * (x1 i - x_old i) }

end PDHG

section AltMinDef

/-- State of `AltMin` (lines 410–429): two caller-supplied minimisation
closures over a caller-owned block of variables `St`. -/
structure AltMin (St : Type) where
  min1 : St → St
  min2 : St → St
  vars : St

/-- Embeds `AltMin._update` (lines 426–429): call `min1()`, then
`min2()`. -/
def AltMin.update {St : Type} (s : AltMin St) : AltMin St :=
  { s with vars := s.min2 (s.min1 s.vars) }

end AltMinDef

/-
Concrete fixtures used to evaluate the theorems on explicit inputs.
-/

/-- A plain (unaccelerated, prox-free) gradient-method state over `ℚ` in
one dimension, with `gradf` the identity, `alpha = 1/2`, `x = (1)`. -/
def gmFix : GradientMethod ℚ 1 :=
  ⟨fun v => v, 1 / 2, none, false, fun _ => 1, fun _ => 1, 1, fun _ => 1, ⊤⟩

/-- An accelerated gradient-method state over `ℚ` just after `_init`:
`t = 1` and `z = x`. -/
def gmAccelFix : GradientMethod ℚ 1 :=
  ⟨fun v => v, 1 / 2, none, true, fun _ => 1, fun _ => 1, 1, fun _ => 0, ⊤⟩

/-- A conjugate-gradient state over `ℚ` in one dimension with `A` the
identity, no preconditioner, `p = (2)`, `r = (4)`, `rzold = 4`. -/
def cgFix : ConjugateGradient ℚ 1 :=
  ⟨fun v => v, none, fun _ => 0, fun _ => 4, fun _ => 4, fun _ => 2, 4, 0, 2,
   false⟩

/-- A conjugate-gradient state over `ℚ` whose search direction has exactly
zero curvature: `A = 0`, so `dot(p, A(p)) = 0`. -/
def cgZeroFix : ConjugateGradient ℚ 1 :=
  ⟨fun _ => fun _ => 0, none, fun _ => 1, fun _ => 1, fun _ => 1, fun _ => 1,
   1, 0, 1, false⟩

/-- A power-method state over `ℝ` in one dimension with `A` the identity
and `x = (1)`, so `A(x)` is nonzero. -/
def pmFix : PowerMethod ℝ 1 := ⟨fun v => v, fun _ => 1, 0⟩

/-- A power-method state over `ℚ` whose map sends everything to the zero
array. -/
def pmZeroFix : PowerMethod ℚ 1 := ⟨fun _ => fun _ => 0, fun _ => 1, 0⟩

/-- A Newton-method state over `ℚ` in one dimension: zero gradient,
identity Hessian map, trivial Hessian-weighted proximal operator. -/
def nmFix : NewtonsMethod ℚ 1 :=
  ⟨fun _ => fun _ => 0, fun _ => fun v => v, fun _ v => v, 1 / 3,
   fun _ => 0, 0⟩

/-- An unaccelerated PDHG state over `ℚ` (both strong-convexity
parameters zero), with identity proximal maps and identity linear map. -/
def pdhgFix : PrimalDualHybridGradient ℚ 1 1 :=
  ⟨fun _ v => v, fun _ v => v, fun v => v, fun v => v, fun _ => 1,
   fun _ => 2, 1, 1, 0, 0, fun _ => 2, fun _ => 1, fun _ => 2⟩

/-
Claim theorems.
-/

/-- C1: the claim says every `NewtonsMethod.update()` call computes the
damping factor `alpha = 1/(1+lamda)` and applies `x ← x + alpha*d`.  The
source never computes `alpha`: line 320 reads an unbound name, so every
call raises `NameError` after assigning `lamda`, and `x` is never
stepped. -/
theorem spec_C1_newton_update_raises {K : Type} [LinearOrderedField K]
    {n : ℕ} (sqrt : K → K) (s : NewtonsMethod K n) :
    (NewtonsMethod.update sqrt s).2 =
      Except.error "NameError: name alpha is not defined" ∧
    (NewtonsMethod.update sqrt s).1.x = s.x :=
  ⟨rfl, rfl⟩

/-- C2 counterexample: a concrete `update()` call on `NewtonsMethod` — a
solver of this module — raises `NameError` before the engine reaches
`self.iter += 1`, so the iteration counter stays at `0` instead of
increasing to `1`: the claim's universal per-call increment is false on
this code. -/
theorem spec_C2_lifecycle_counterexample :
    (Alg.updateE (NewtonsMethod.hookE (fun q : ℚ => q))
        ⟨10, 0, nmFix⟩).1.iter = 0 ∧
    (Alg.updateE (NewtonsMethod.hookE (fun q : ℚ => q))
        ⟨10, 0, nmFix⟩).2 =
      Except.error "NameError: name alpha is not defined" :=
  ⟨rfl, rfl⟩

/-- C2 amended: immediately after `init()` the iteration counter is `0`;
every `update()` call that completes increments the counter by exactly
one — which is every solver's update except `NewtonsMethod`, whose
`_update` always raises before the increment, leaving the counter
unchanged; and every solver's `done()` holds whenever the counter has
reached `max_iter`, whatever the residual state — for the default
predicate and for the two overriding solvers (`GradientMethod`,
`ConjugateGradient`). -/
theorem spec_C2_lifecycle_amended {K : Type} [LinearOrderedField K] {n : ℕ} :
    (∀ (σ : Type) (hookInit : σ → σ) (max_iter : ℕ) (s : σ),
        (Alg.init hookInit max_iter s).iter = 0) ∧
    (∀ (σ : Type) (hookUpdate : ℕ → ℕ → σ → σ) (a : AlgState σ),
        (Alg.update hookUpdate a).iter = a.iter + 1) ∧
    (∀ (sqrt : K → K) (a : AlgState (NewtonsMethod K n)),
        (Alg.updateE (NewtonsMethod.hookE sqrt) a).1.iter = a.iter ∧
        (Alg.updateE (NewtonsMethod.hookE sqrt) a).2 =
          Except.error "NameError: name alpha is not defined") ∧
    (∀ (σ : Type) (a : AlgState σ), a.iter ≥ a.max_iter → Alg.doneDefault a) ∧
    (∀ a : AlgState (GradientMethod K n),
        a.iter ≥ a.max_iter → GradientMethod.done a) ∧
    (∀ a : AlgState (ConjugateGradient K n),
        a.iter ≥ a.max_iter → ConjugateGradient.done a) :=
  ⟨fun _ _ _ _ => rfl, fun _ _ _ => rfl, fun _ _ => ⟨rfl, rfl⟩,
   fun _ _ h => h, fun _ h => Or.inl h, fun _ h => Or.inl h⟩

/-- Witness for the amended C2 at concrete inputs: a trivial solver
state, the Newton fixture at counter `2`, and the fixture
gradient/conjugate-gradient states at `iter = max_iter = 5`. -/
theorem spec_C2_lifecycle_amended_witness :
    (Alg.init (fun s : ℕ => s) 5 0).iter = 0 ∧
    (Alg.update (fun _ _ s : ℕ => s) ⟨5, 2, 0⟩).iter = 2 + 1 ∧
    (Alg.updateE (NewtonsMethod.hookE (fun q : ℚ => q))
        ⟨5, 2, nmFix⟩).1.iter = 2 ∧
    Alg.doneDefault (⟨5, 5, 0⟩ : AlgState ℕ) ∧
    GradientMethod.done ⟨5, 5, gmFix⟩ ∧
    ConjugateGradient.done ⟨5, 5, cgFix⟩ :=
  ⟨(@spec_C2_lifecycle_amended ℚ _ 1).1 ℕ (fun s => s) 5 0,
   (@spec_C2_lifecycle_amended ℚ _ 1).2.1 ℕ (fun _ _ s => s) ⟨5, 2, 0⟩,
   ((@spec_C2_lifecycle_amended ℚ _ 1).2.2.1 (fun q => q) ⟨5, 2, nmFix⟩).1,
   (@spec_C2_lifecycle_amended ℚ _ 1).2.2.2.1 ℕ ⟨5, 5, 0⟩ (by decide),
   (@spec_C2_lifecycle_amended ℚ _ 1).2.2.2.2.1 ⟨5, 5, gmFix⟩ (by decide),
   (@spec_C2_lifecycle_amended ℚ _ 1).2.2.2.2.2 ⟨5, 5, cgFix⟩ (by decide)⟩

/-- C8: between `init()` and `cleanup()`, `GradientMethod.done()` holds
exactly when the iteration count is exhausted or the residual is exactly
zero; in particular a nonzero residual, however small, never terminates
before the iteration ceiling (exact-zero comparison, not a tolerance). -/
theorem spec_C8_gradient_done {K : Type} [LinearOrderedField K] {n : ℕ} :
    (∀ a : AlgState (GradientMethod K n),
        GradientMethod.done a ↔
          a.iter ≥ a.max_iter ∨ a.st.residual = (0 : K)) ∧
    (∀ (a : AlgState (GradientMethod K n)) (eps : K),
        a.iter < a.max_iter → a.st.residual = (eps : WithTop K) → eps ≠ 0 →
        ¬ GradientMethod.done a) := by
  constructor
  · intro a; exact Iff.rfl
  · intro a eps hlt hres hne hdone
    rcases hdone with h | h
    · exact absurd h (not_le.mpr hlt)
    · rw [hres] at h
      exact hne (by exact_mod_cast h)

/-- Witness for C8: with residual `1/1000000` and `iter = 0 < 5 =
max_iter`, `done()` is false. -/
theorem spec_C8_gradient_done_witness :
    ¬ GradientMethod.done
        ⟨5, 0, { gmFix with residual := ((1 / 1000000 : ℚ) : WithTop ℚ) }⟩ :=
  (@spec_C8_gradient_done ℚ _ 1).2
    ⟨5, 0, { gmFix with residual := ((1 / 1000000 : ℚ) : WithTop ℚ) }⟩
    (1 / 1000000) (by decide) rfl (by norm_num)

/-- C9: `PowerMethod.update` always performs the elementwise division
`x ← A(x)/max_eig` with no guard on the divisor, and when `A(x)` is the
zero array the divisor `max_eig = norm(A(x))` is exactly `0` — an
unguarded division by zero (no analogue of the conjugate-gradient
`pAp == 0` branch). -/
theorem spec_C9_power_unguarded {K : Type} [LinearOrderedField K] {n : ℕ}
    (sqrt : K → K) (s : PowerMethod K n)
    (h0 : sqrt 0 = 0) (hA : ∀ i, s.A s.x i = 0) :
    (∀ (s' : PowerMethod K n) (i : Fin n),
        (PowerMethod.update sqrt s').x i =
          s'.A s'.x i / (PowerMethod.update sqrt s').max_eig) ∧
    (PowerMethod.update sqrt s).max_eig = 0 := by
  refine ⟨fun s' i => rfl, ?_⟩
  simp [PowerMethod.update, normV, dot, hA, h0]

/-- Witness for C9: the map sending everything to the zero array, with
the identity standing in for the backend square root (`sqrt 0 = 0`). -/
theorem spec_C9_power_unguarded_witness :
    (PowerMethod.update (fun q : ℚ => q) pmZeroFix).max_eig = 0 :=
  (spec_C9_power_unguarded (fun q : ℚ => q) pmZeroFix rfl
    (fun _ => rfl)).2

/-- C4: with `gamma_primal = 0` and `gamma_dual = 0`,
`PrimalDualHybridGradient.update` leaves the step sizes `tau` and `sigma`
unchanged and extrapolates with `theta = 1`:
`x_ext = x + 1*(x − x_old)` where `x_old` is the pre-update `x`. -/
theorem spec_C4_pdhg_unaccelerated {K : Type} [LinearOrderedField K]
    {n m : ℕ} (sqrt : K → K) (s : PrimalDualHybridGradient K n m)
    (hp : s.gamma_primal = 0) (hd : s.gamma_dual = 0) :
    (PrimalDualHybridGradient.update sqrt s).tau = s.tau ∧
    (PrimalDualHybridGradient.update sqrt s).sigma = s.sigma ∧
    (PrimalDualHybridGradient.update sqrt s).x_old = s.x ∧
    (∀ i, (PrimalDualHybridGradient.update sqrt s).x_ext i =
        (PrimalDualHybridGradient.update sqrt s).x i +
          1 * ((PrimalDualHybridGradient.update sqrt s).x i - s.x i)) := by
  simp [PrimalDualHybridGradient.update, hp, hd]

/-- Witness for C4 on the unaccelerated fixture. -/
theorem spec_C4_pdhg_unaccelerated_witness :
    (PrimalDualHybridGradient.update (fun q : ℚ => q) pdhgFix).tau =
      pdhgFix.tau ∧
    (PrimalDualHybridGradient.update (fun q : ℚ => q) pdhgFix).sigma =
      pdhgFix.sigma ∧
    (PrimalDualHybridGradient.update (fun q : ℚ => q) pdhgFix).x_old =
      pdhgFix.x ∧
    (∀ i, (PrimalDualHybridGradient.update (fun q : ℚ => q) pdhgFix).x_ext i =
        (PrimalDualHybridGradient.update (fun q : ℚ => q) pdhgFix).x i +
          1 * ((PrimalDualHybridGradient.update (fun q : ℚ => q) pdhgFix).x i -
            pdhgFix.x i)) :=
  spec_C4_pdhg_unaccelerated (fun q : ℚ => q) pdhgFix rfl rfl

/-- C10: the accelerated gradient method initialises the momentum
coefficient `t` to `1`, so on the first `update()` the extrapolation
weight `(t_old − 1)/t_new` is `0`, the momentum point `z` coincides with
`x` after the update, and the produced `x` equals the one produced by the
plain (proximal) gradient step from the same state. -/
theorem spec_C10_first_accel_step {K : Type} [LinearOrderedField K] {n : ℕ}
    (sqrt : K → K) (s0 s : GradientMethod K n)
    (h0 : s0.accelerate = true)
    (haccel : s.accelerate = true) (ht : s.t = 1) (hz : s.z = s.x) :
    (GradientMethod.init s0).t = 1 ∧
    (s.t - 1) / (GradientMethod.update sqrt s).t = 0 ∧
    (∀ i, (GradientMethod.update sqrt s).z i =
        (GradientMethod.update sqrt s).x i) ∧
    (∀ i, (GradientMethod.update sqrt s).x i =
        (GradientMethod.update sqrt
          { s with accelerate := false }).x i) := by
  refine ⟨?_, ?_, ?_, ?_⟩
  · simp [GradientMethod.init, h0]
  · simp [ht]
  · intro i
    simp [GradientMethod.update, haccel, ht]
  · intro i
    cases hpx : s.proxg <;>
      simp [GradientMethod.update, haccel, hz, hpx]

/-- Witness for C10 on the post-`_init` accelerated fixture
(`t = 1`, `z = x`). -/
theorem spec_C10_first_accel_step_witness :
    (GradientMethod.init gmAccelFix).t = 1 ∧
    (gmAccelFix.t - 1) /
      (GradientMethod.update (fun q : ℚ => q) gmAccelFix).t = 0 ∧
    (∀ i, (GradientMethod.update (fun q : ℚ => q) gmAccelFix).z i =
        (GradientMethod.update (fun q : ℚ => q) gmAccelFix).x i) ∧
    (∀ i, (GradientMethod.update (fun q : ℚ => q) gmAccelFix).x i =
        (GradientMethod.update (fun q : ℚ => q)
          { gmAccelFix with accelerate := false }).x i) :=
  spec_C10_first_accel_step (fun q : ℚ => q) gmAccelFix gmAccelFix
    rfl rfl rfl rfl

/-- Updating a conjugate-gradient state never clears the `zero_gradient`
flag: neither branch of `_update` writes `false` into it. -/
theorem CG_update_keeps_flag {K : Type} [LinearOrderedField K] {n : ℕ}
    (sqrt : K → K) (mi it : ℕ) (s : ConjugateGradient K n)
    (h : s.zero_gradient = true) :
    (ConjugateGradient.update sqrt mi it s).zero_gradient = true := by
  unfold ConjugateGradient.update
  by_cases hp : dot s.p (s.A s.p) = 0
  · simp [hp]
  · by_cases hit : it < mi - 1 <;> simp [hp, hit, h]

/-- Once `zero_gradient` is set, any number of further engine `update()`
calls leaves it set. -/
theorem CG_iterate_keeps_flag {K : Type} [LinearOrderedField K] {n : ℕ}
    (sqrt : K → K) (k : ℕ) (a : AlgState (ConjugateGradient K n))
    (h : a.st.zero_gradient = true) :
    (Alg.iterate (ConjugateGradient.hook sqrt) k a).st.zero_gradient =
      true := by
  induction k with
  | zero => exact h
  | succ k ih => exact CG_update_keeps_flag sqrt _ _ _ ih

/-- C3: on an `update()` with `dot(p, A(p)) = 0`, `ConjugateGradient`
sets `zero_gradient` and returns with `x`, `r`, `p`, `rzold` and
`residual` untouched, and every subsequent `done()` — after any number of
further `update()` calls, at any counter value — returns true. -/
theorem spec_C3_cg_zero_curvature {K : Type} [LinearOrderedField K] {n : ℕ}
    (sqrt : K → K) (mi it : ℕ) (s : ConjugateGradient K n)
    (h : dot s.p (s.A s.p) = 0) :
    (ConjugateGradient.update sqrt mi it s).zero_gradient = true ∧
    (ConjugateGradient.update sqrt mi it s).x = s.x ∧
    (ConjugateGradient.update sqrt mi it s).r = s.r ∧
    (ConjugateGradient.update sqrt mi it s).p = s.p ∧
    (ConjugateGradient.update sqrt mi it s).rzold = s.rzold ∧
    (ConjugateGradient.update sqrt mi it s).residual = s.residual ∧
    ∀ (k j : ℕ),
      ConjugateGradient.done
        (Alg.iterate (ConjugateGradient.hook sqrt) k
          ⟨mi, j, ConjugateGradient.update sqrt mi it s⟩) := by
  have hupd : ConjugateGradient.update sqrt mi it s =
      { s with zero_gradient := true } := by
    unfold ConjugateGradient.update
    simp [h]
  refine ⟨by rw [hupd], by rw [hupd], by rw [hupd], by rw [hupd],
          by rw [hupd], by rw [hupd], ?_⟩
  intro k j
  exact Or.inr (Or.inl (CG_iterate_keeps_flag sqrt k _ (by rw [hupd])))

/-- Witness for C3 on the zero-curvature fixture (`A = 0`), including a
`done()` check two further updates later. -/
theorem spec_C3_cg_zero_curvature_witness :
    (ConjugateGradient.update (fun q : ℚ => q) 3 0 cgZeroFix).zero_gradient
      = true ∧
    (ConjugateGradient.update (fun q : ℚ => q) 3 0 cgZeroFix).x =
      cgZeroFix.x ∧
    ConjugateGradient.done
      (Alg.iterate (ConjugateGradient.hook (fun q : ℚ => q)) 2
        ⟨3, 1, ConjugateGradient.update (fun q : ℚ => q) 3 0 cgZeroFix⟩) := by
  have h : dot cgZeroFix.p (cgZeroFix.A cgZeroFix.p) = 0 := by
    simp [cgZeroFix, dot]
  have H := spec_C3_cg_zero_curvature (fun q : ℚ => q) 3 0 cgZeroFix h
  exact ⟨H.1, H.2.1, H.2.2.2.2.2.2 2 1⟩

/-- C6: on an `update()` with `dot(p, A(p)) ≠ 0`, `ConjugateGradient`
sets `alpha = rzold/pAp` and `x ← x + alpha·p`; it refreshes `r`, `z`,
`rznew`, `beta`, `p`, `rzold` exactly when `iter < max_iter - 1` (and
leaves `r`, `p`, `rzold` untouched otherwise); and finally
`residual = sqrt(rzold)` for the resulting `rzold`. -/
theorem spec_C6_cg_update {K : Type} [LinearOrderedField K] {n : ℕ}
    (sqrt : K → K) (mi it : ℕ) (s : ConjugateGradient K n)
    (h : dot s.p (s.A s.p) ≠ 0) :
    (ConjugateGradient.update sqrt mi it s).alpha =
      s.rzold / dot s.p (s.A s.p) ∧
    (∀ i, (ConjugateGradient.update sqrt mi it s).x i =
        s.x i + s.rzold / dot s.p (s.A s.p) * s.p i) ∧
    (it < mi - 1 →
        (∀ i, (ConjugateGradient.update sqrt mi it s).r i =
            s.r i - s.rzold / dot s.p (s.A s.p) * s.A s.p i) ∧
        (ConjugateGradient.update sqrt mi it s).rzold =
          dot (ConjugateGradient.update sqrt mi it s).r
            (CGprecond s.P (ConjugateGradient.update sqrt mi it s).r) ∧
        (∀ i, (ConjugateGradient.update sqrt mi it s).p i =
            CGprecond s.P (ConjugateGradient.update sqrt mi it s).r i +
              (ConjugateGradient.update sqrt mi it s).rzold / s.rzold *
                s.p i)) ∧
    (¬ it < mi - 1 →
        (ConjugateGradient.update sqrt mi it s).r = s.r ∧
        (ConjugateGradient.update sqrt mi it s).p = s.p ∧
        (ConjugateGradient.update sqrt mi it s).rzold = s.rzold) ∧
    (ConjugateGradient.update sqrt mi it s).residual =
      sqrt (ConjugateGradient.update sqrt mi it s).rzold := by
  by_cases hit : it < mi - 1
  · refine ⟨?_, ?_, fun _ => ⟨?_, ?_, ?_⟩, fun hc => absurd hit hc, ?_⟩
    · simp [ConjugateGradient.update, h, hit]
    · intro i
      simp [ConjugateGradient.update, h, hit, axpy]
    · intro i
      simp [ConjugateGradient.update, h, hit, axpy, sub_eq_add_neg]
    · simp [ConjugateGradient.update, h, hit, axpy]
    · intro i
      simp [ConjugateGradient.update, h, hit, axpy, xpay]
    · simp [ConjugateGradient.update, h, hit]
  · refine ⟨?_, ?_, fun hc => absurd hc hit, fun _ => ⟨?_, ?_, ?_⟩, ?_⟩
    · simp [ConjugateGradient.update, h, hit]
    · intro i
      simp [ConjugateGradient.update, h, hit, axpy]
    · simp [ConjugateGradient.update, h, hit]
    · simp [ConjugateGradient.update, h, hit]
    · simp [ConjugateGradient.update, h, hit]
    · simp [ConjugateGradient.update, h, hit]

/-- Witness for C6 on the nonzero-curvature fixture (`pAp = 4`) in the
non-final-iteration case (`iter = 0`, `max_iter = 3`). -/
theorem spec_C6_cg_update_witness :
    (ConjugateGradient.update (fun q : ℚ => q) 3 0 cgFix).alpha =
      cgFix.rzold / dot cgFix.p (cgFix.A cgFix.p) ∧
    (ConjugateGradient.update (fun q : ℚ => q) 3 0 cgFix).x 0 =
      cgFix.x 0 + cgFix.rzold / dot cgFix.p (cgFix.A cgFix.p) * cgFix.p 0 ∧
    (ConjugateGradient.update (fun q : ℚ => q) 3 0 cgFix).r 0 =
      cgFix.r 0 - cgFix.rzold / dot cgFix.p (cgFix.A cgFix.p) *
        cgFix.A cgFix.p 0 ∧
    (ConjugateGradient.update (fun q : ℚ => q) 3 0 cgFix).residual =
      (ConjugateGradient.update (fun q : ℚ => q) 3 0 cgFix).rzold := by
  have h : dot cgFix.p (cgFix.A cgFix.p) ≠ 0 := by
    simp [cgFix, dot]
  have H := spec_C6_cg_update (fun q : ℚ => q) 3 0 cgFix h
  exact ⟨H.1, H.2.1 0, (H.2.2.1 (by norm_num)).1 0, H.2.2.2.2⟩

/-- A plain (unaccelerated, prox-free) gradient-method update is exactly
`x ← x − alpha·gradf(x)`. -/
theorem GM_plain_update_x {K : Type} [LinearOrderedField K] {n : ℕ}
    (sqrt : K → K) (s : GradientMethod K n)
    (hacc : s.accelerate = false) (hprox : s.proxg = none) :
    ∀ i, (GradientMethod.update sqrt s).x i =
      s.x i - s.alpha * s.gradf s.x i := by
  intro i
  simp [GradientMethod.update, hacc, hprox, axpy, sub_eq_add_neg]

/-- C5: for the unaccelerated, prox-free gradient method with `gradf` the
identity (the gradient of `f(x) = ½‖x‖²`), `k` engine `update()` calls
scale the iterate geometrically: `x_k = (1 − alpha)^k · x_0`. -/
theorem spec_C5_plain_gradient_geometric {K : Type} [LinearOrderedField K]
    {n : ℕ} (sqrt : K → K) (a : AlgState (GradientMethod K n))
    (hacc : a.st.accelerate = false) (hprox : a.st.proxg = none)
    (hgrad : a.st.gradf = fun v => v) :
    ∀ (k : ℕ) (i : Fin n),
      (Alg.iterate (GradientMethod.hook sqrt) k a).st.x i =
        (1 - a.st.alpha) ^ k * a.st.x i := by
  have main : ∀ k : ℕ,
      (Alg.iterate (GradientMethod.hook sqrt) k a).st.accelerate = false ∧
      (Alg.iterate (GradientMethod.hook sqrt) k a).st.proxg = none ∧
      (Alg.iterate (GradientMethod.hook sqrt) k a).st.gradf = (fun v => v) ∧
      (Alg.iterate (GradientMethod.hook sqrt) k a).st.alpha = a.st.alpha ∧
      ∀ i, (Alg.iterate (GradientMethod.hook sqrt) k a).st.x i =
        (1 - a.st.alpha) ^ k * a.st.x i := by
    intro k
    induction k with
    | zero => exact ⟨hacc, hprox, hgrad, rfl, fun i => by simp [Alg.iterate]⟩
    | succ k ih =>
        obtain ⟨ih1, ih2, ih3, ih4, ih5⟩ := ih
        refine ⟨ih1, ih2, ih3, ih4, ?_⟩
        intro i
        have hx := GM_plain_update_x sqrt
          (Alg.iterate (GradientMethod.hook sqrt) k a).st ih1 ih2 i
        show (GradientMethod.update sqrt
          (Alg.iterate (GradientMethod.hook sqrt) k a).st).x i = _
        rw [hx, ih3, ih4]
        simp only []
        rw [ih5 i]
        ring
  exact fun k i => (main k).2.2.2.2 i

/-- Witness for C5: the fixture state with `alpha = 1/2`, `x_0 = (1)`;
after two updates the iterate is `(1 − 1/2)² · 1 = 1/4`. -/
theorem spec_C5_plain_gradient_geometric_witness :
    (Alg.iterate (GradientMethod.hook (fun q : ℚ => q)) 2
      ⟨100, 0, gmFix⟩).st.x 0 = 1 / 4 := by
  have H := spec_C5_plain_gradient_geometric (fun q : ℚ => q)
    ⟨100, 0, gmFix⟩ rfl rfl rfl 2 0
  rw [H]
  norm_num [gmFix]

/-- Dividing every component by the same scalar divides the dot square by
the scalar's square. -/
theorem dot_div_div {K : Type} [LinearOrderedField K] {n : ℕ}
    (y : Vec K n) (c : K) :
    dot (fun i => y i / c) (fun i => y i / c) = dot y y / (c * c) := by
  unfold dot
  simp only []
  rw [Finset.sum_div]
  exact Finset.sum_congr rfl fun i _ => div_mul_div_comm _ _ _ _

/-- C7: every `PowerMethod.update` sets `max_eig = ‖A(x)‖` and replaces
`x` in place by `A(x)/max_eig`; whenever `A(x)` is nonzero the updated
iterate has Euclidean norm exactly `1`; and `done()` is the inherited
default predicate, true exactly when the counter reaches `max_iter`
(no residual-based stopping). -/
theorem spec_C7_power_normalizes {n : ℕ} (s : PowerMethod ℝ n)
    (hA : ∃ i, s.A s.x i ≠ 0) :
    (PowerMethod.update Real.sqrt s).max_eig =
      normV Real.sqrt (s.A s.x) ∧
    (∀ i, (PowerMethod.update Real.sqrt s).x i =
        s.A s.x i / normV Real.sqrt (s.A s.x)) ∧
    normV Real.sqrt (PowerMethod.update Real.sqrt s).x = 1 ∧
    (∀ a : AlgState (PowerMethod ℝ n),
        PowerMethod.done a ↔ a.iter ≥ a.max_iter) := by
  obtain ⟨j, hj⟩ := hA
  have hS : 0 < dot (s.A s.x) (s.A s.x) :=
    Finset.sum_pos' (fun i _ => mul_self_nonneg _)
      ⟨j, Finset.mem_univ j, mul_self_pos.mpr hj⟩
  have hc : Real.sqrt (dot (s.A s.x) (s.A s.x)) *
      Real.sqrt (dot (s.A s.x) (s.A s.x)) = dot (s.A s.x) (s.A s.x) :=
    Real.mul_self_sqrt hS.le
  refine ⟨rfl, fun i => rfl, ?_, fun a => Iff.rfl⟩
  show normV Real.sqrt
    (fun i => s.A s.x i / Real.sqrt (dot (s.A s.x) (s.A s.x))) = 1
  unfold normV
  rw [dot_div_div, hc, div_self hS.ne', Real.sqrt_one]

/-- Witness for C7: the identity map on one-dimensional vectors with
`x = (1)`, whose image is nonzero. -/
theorem spec_C7_power_normalizes_witness :
    (∃ i, pmFix.A pmFix.x i ≠ 0) ∧
    normV Real.sqrt (PowerMethod.update Real.sqrt pmFix).x = 1 := by
  have hA : ∃ i, pmFix.A pmFix.x i ≠ 0 := ⟨0, one_ne_zero⟩
  exact ⟨hA, (spec_C7_power_normalizes pmFix hA).2.2.1⟩
